import Mathlib

/-!
Verification of `udhrlen` (`src/main.rs`): a tool that extracts body text
from UDHR XML documents, measures it under several Unicode size metrics,
and aggregates per-metric statistics.

The embedding models the XML event stream as a `List Event` (the shape
`quick_xml::Reader::read_event` yields), the extraction state machine of
`count` as explicit state passing over `Option` (a failed `assert!` or
panic becomes `none`), strings as `List Char`, `usize` arithmetic as `Nat`
with explicit wrap where the source can underflow, and `f64` arithmetic as
`ℚ` (the shared `.powf(0.75) * 100.0` float step of `colorize` is factored
out: claims about the saturation reduce to its rational base).

External library calls (`unic_normal` NFC, `unic_segment` graphemes) are
not code of this repository; NFC is kept as an explicit function parameter
of the pipeline, and the grapheme counter is modelled from the spec.
-/

namespace Udhrlen

/-- One `quick_xml` event as consumed by `count` (src/main.rs lines 38-72):
start tags, end tags, text runs (already unescaped/decoded, as the source
obtains via `unescape_and_decode`), and `other` for every event kind the
`Ok(_) => {}` arm ignores (`Empty`, `Comment`, `CData`, declarations, ...).
End of the event list plays the role of `Event::Eof`. -/
inductive Event where
  | start (name : String)
  | endTag (name : String)
  | text (content : List Char)
  | other
deriving DecidableEq

/-- The mutable extraction state of `count` (src/main.rs lines 31-33):
the accumulator string and the two exclusion flags. -/
structure ExtractSt where
  accu : List Char
  note : Bool
  preamble : Bool
deriving DecidableEq

/-- `u8::is_ascii_whitespace`: space, horizontal tab, line feed, form feed,
carriage return.  The source applies it to every UTF-8 byte of the text
(src/main.rs line 64); on a `List Char` view this per-char test is
equivalent, since a non-ASCII scalar value encodes only to bytes ≥ 0x80,
none of which is ASCII whitespace. -/
def isAsciiWhitespace (c : Char) : Bool :=
  c = ' ' || c = '\t' || c = '\n' || c = '\x0c' || c = '\r'

/-- One iteration of the `count` event loop (src/main.rs lines 38-72).
A failed `assert!` (entering an already-open `preamble`/`note` region or
closing one that is not open) is a panic, modelled as `none`. -/
def countStep (st : ExtractSt) (e : Event) : Option ExtractSt :=
  match e with
  | .start n =>
    if n = "preamble" then
      if st.preamble then none else some { st with preamble := true }
    else if n = "note" then
      if st.note then none else some { st with note := true }
    else some st
  | .endTag n =>
    if n = "preamble" then
      if st.preamble then some { st with preamble := false } else none
    else if n = "note" then
      if st.note then some { st with note := false } else none
    else some st
  | .text t =>
    if !st.note && !st.preamble then
      if t.all isAsciiWhitespace then some st
      else some { st with accu := st.accu ++ t }
    else some st
  | .other => some st

/-- The whole `count` event loop run from a given state; `none` once any
iteration panics (the loop never continues past a failed assertion). -/
def processEvents (st : ExtractSt) : List Event → Option ExtractSt
  | [] => some st
  | e :: rest =>
    match countStep st e with
    | none => none
    | some st' => processEvents st' rest

/-- The accumulated string `accu` after the full event stream, starting
from the initial state of `count` (empty accumulator, both flags false). -/
def countEvents (events : List Event) : Option (List Char) :=
  (processEvents ⟨[], false, false⟩ events).map ExtractSt.accu

/-- The extracted text of `count` (src/main.rs line 75): the accumulator
passed through NFC normalization.  NFC itself is `unic_normal` library
code, not code of this repository, so it stays an explicit parameter. -/
def countResult (nfc : List Char → List Char) (events : List Event) :
    Option (List Char) :=
  (countEvents events).map nfc

/-- Spec-side description of extraction, amended wording: the in-order
list of the contents of exactly those text events that are not entirely
ASCII whitespace and occur while neither exclusion flag is set; `none` on
the same illegal region transitions. -/
def specIncludedTexts (note preamble : Bool) :
    List Event → Option (List (List Char))
  | [] => some []
  | e :: rest =>
    match e with
    | .start n =>
      if n = "preamble" then
        if preamble then none else specIncludedTexts note true rest
      else if n = "note" then
        if note then none else specIncludedTexts true preamble rest
      else specIncludedTexts note preamble rest
    | .endTag n =>
      if n = "preamble" then
        if preamble then specIncludedTexts note false rest else none
      else if n = "note" then
        if note then specIncludedTexts false preamble rest else none
      else specIncludedTexts note preamble rest
    | .text t =>
      if !note && !preamble && !(t.all isAsciiWhitespace) then
        (specIncludedTexts note preamble rest).map (t :: ·)
      else specIncludedTexts note preamble rest
    | .other => specIncludedTexts note preamble rest

/-- Spec-side description of extraction exactly as claim C1 states it:
the contents of ALL text events occurring while neither flag is set,
with no whitespace filtering. -/
def specIncludedTextsAll (note preamble : Bool) :
    List Event → Option (List (List Char))
  | [] => some []
  | e :: rest =>
    match e with
    | .start n =>
      if n = "preamble" then
        if preamble then none else specIncludedTextsAll note true rest
      else if n = "note" then
        if note then none else specIncludedTextsAll true preamble rest
      else specIncludedTextsAll note preamble rest
    | .endTag n =>
      if n = "preamble" then
        if preamble then specIncludedTextsAll note false rest else none
      else if n = "note" then
        if note then specIncludedTextsAll false preamble rest else none
      else specIncludedTextsAll note preamble rest
    | .text t =>
      if !note && !preamble then
        (specIncludedTextsAll note preamble rest).map (t :: ·)
      else specIncludedTextsAll note preamble rest
    | .other => specIncludedTextsAll note preamble rest

/-- Number of 8-bit code units of one scalar value in UTF-8; `dhr.len()`
(src/main.rs line 79) is the sum of these over the string's chars. -/
def utf8Len (c : Char) : Nat :=
  if c.val.toNat < 0x80 then 1
  else if c.val.toNat < 0x800 then 2
  else if c.val.toNat < 0x10000 then 3
  else 4

/-- `dhr.len()`: the UTF-8 byte count of the string (src/main.rs line 79). -/
def utf8Count (s : List Char) : Nat := (s.map utf8Len).sum

/-- Number of 16-bit code units of one scalar value in UTF-16 (surrogate
pairs count as 2). -/
def utf16Len (c : Char) : Nat := if c.val.toNat < 0x10000 then 1 else 2

/-- `dhr.encode_utf16().count()`: the UTF-16 code-unit count
(src/main.rs line 80). -/
def utf16Count (s : List Char) : Nat := (s.map utf16Len).sum

/-- `dhr.chars().count()`: the scalar-value (code-point) count
(src/main.rs line 81). -/
def utf32Count (s : List Char) : Nat := s.length

/-- Whether a char extends the preceding grapheme cluster in the modelled
segmentation: the combining diacritical marks U+0300..U+036F. -/
def isGraphemeExtend (c : Char) : Bool :=
  0x300 ≤ c.val.toNat && c.val.toNat ≤ 0x36F

/-- Whether the modelled segmentation places a cluster boundary between
two adjacent chars: everywhere except before an extending mark and inside
a CR LF pair. -/
def graphemeBoundary (prev c : Char) : Bool :=
  !(prev = '\r' && c = '\n') && !(isGraphemeExtend c)

/-- Number of cluster boundaries strictly inside `prev :: rest`. -/
def graphemeBreaks (prev : Char) : List Char → Nat
  | [] => 0
  | c :: rest =>
    (if graphemeBoundary prev c then 1 else 0) + graphemeBreaks c rest

/-- Modelled from the spec: `Graphemes::new(&dhr).count()`
(src/main.rs line 82) counts extended grapheme clusters "per the Unicode
text segmentation rules"; the full UAX #29 implementation lives in the
external `unic_segment` crate, not in this repository.  This model keeps
the rules the claims exercise: every char starts a new cluster except a
combining mark U+0300..U+036F (rule GB9's core case) and a LF directly
after a CR (rule GB3); the empty string has zero clusters. -/
def graphemeCount : List Char → Nat
  | [] => 0
  | c :: rest => 1 + graphemeBreaks c rest

/-- One per-document record, `struct Lang` (src/main.rs lines 14-24). The
`width` metric is carried as data; its computation (`unicode_width`) is
external and no claim depends on its value. -/
structure Lang where
  name : String
  utf8 : Nat
  utf16 : Nat
  utf32 : Nat
  graphemes : Nat
  width : Nat
  code : Option String
  script : Option String
deriving DecidableEq

/-- Wrapping `usize` subtraction, for `langs.len() - 1` and
`langs.len() - 2` (src/main.rs lines 218-247): Rust release builds wrap
`usize` two's-complement, so `1 - 2` becomes `2^64 - 1`, an index whose
lookup then panics.  Defined for `a < 2^64` and `b ≤ 2^64`. -/
def usizeSub (a b : Nat) : Nat := (a + (2 ^ 64 - b)) % 2 ^ 64

/-- `langs.sort_by(|a, b| metric(a).cmp(&metric(b)))`: a stable sort of
the records ascending by one metric (src/main.rs lines 218, 225, 231,
237, 243).  Rust's `sort_by` is specified as a stable sort; any two
stable sorts by the same key agree, so the structurally recursive stable
`List.insertionSort` is its model. -/
def sortBy (f : Lang → Nat) (ls : List Lang) : List Lang :=
  List.insertionSort (fun a b => f a ≤ f b) ls

/-- `langs[langs.len() / 2].metric` after the metric sort: the reported
median.  `none` models an index-out-of-range panic (empty vector). -/
def medianBy (f : Lang → Nat) (ls : List Lang) : Option Nat :=
  ((sortBy f ls).get? (ls.length / 2)).map f

/-- `langs[0].metric` after the metric sort: the reported minimum. -/
def minBy (f : Lang → Nat) (ls : List Lang) : Option Nat :=
  ((sortBy f ls).get? 0).map f

/-- `langs[langs.len() - 1].metric` after the metric sort: the reported
maximum; the index uses wrapping `usize` subtraction. -/
def maxBy (f : Lang → Nat) (ls : List Lang) : Option Nat :=
  ((sortBy f ls).get? (usizeSub ls.length 1)).map f

/-- `langs[langs.len() - 2].metric` after the metric sort: the reported
"max excluding outlier"; the index uses wrapping `usize` subtraction, so
for a one-element vector it is `2^64 - 1` and the lookup panics. -/
def max2By (f : Lang → Nat) (ls : List Lang) : Option Nat :=
  ((sortBy f ls).get? (usizeSub ls.length 2)).map f

/-- The `total_* += lang.*` accumulation loop (src/main.rs lines 255-266). -/
def totalBy (f : Lang → Nat) (ls : List Lang) : Nat :=
  ls.foldl (fun acc l => acc + f l) 0

/-- `total / langs.len()`: the reported mean, `usize` (truncating)
division (src/main.rs lines 267-271). -/
def meanBy (f : Lang → Nat) (ls : List Lang) : Nat :=
  totalBy f ls / ls.length

/-- `colorize` (src/main.rs lines 89-96) up to its final floating-point
step: the hue and the rational value of `factor`.  The source returns
`(hue, (1.0 - factor).powf(0.75) * 100.0)`; the `powf`/scale step is the
same float function on both the code's and the spec's formula, so claims
about the saturation reduce to the base `1 - factor` computed here. -/
def colorize (baseline_result comparison_result : Nat) : Nat × ℚ :=
  if baseline_result < comparison_result then
    (0, (baseline_result : ℚ) / (comparison_result : ℚ))
  else
    (120, (comparison_result : ℚ) / (baseline_result : ℚ))

/-- `deviation_percent` (src/main.rs lines 98-103) with the `f64`
arithmetic modelled as exact rational arithmetic. -/
def deviation_percent (value median : Nat) : ℚ :=
  (((value : ℚ) - (median : ℚ)) / (median : ℚ)) * 100

/-- Whether a carriage return directly followed by a line feed occurs in
the string (the one ASCII sequence the modelled grapheme segmentation
joins into a single cluster). -/
def hasCRLF : List Char → Bool
  | c1 :: c2 :: rest => (c1 = '\r' && c2 = '\n') || hasCRLF (c2 :: rest)
  | _ => false

/-- The event stream of the end-to-end scenario
`<preamble>SKIP</preamble>BODY<note>SKIP</note>`. -/
def scenarioEvents : List Event :=
  [.start "preamble", .text "SKIP".data, .endTag "preamble",
   .text "BODY".data, .start "note", .text "SKIP".data, .endTag "note"]

/-- A concrete record with UTF-8 metric 3 (other fields irrelevant). -/
def langA : Lang := ⟨"a", 3, 1, 1, 1, 1, none, none⟩

/-- A concrete record with UTF-8 metric 4. -/
def langB : Lang := ⟨"b", 4, 2, 2, 2, 2, none, none⟩

/-- A concrete record with UTF-8 metric 1 and width metric 9. -/
def langC : Lang := ⟨"c", 1, 3, 3, 3, 9, none, none⟩

/-- A concrete record with UTF-8 metric 5. -/
def langD : Lang := ⟨"d", 5, 4, 4, 4, 4, none, none⟩

/-- A second concrete record with UTF-8 metric 5. -/
def langE : Lang := ⟨"e", 5, 5, 5, 5, 5, none, none⟩

/-! ## Theorems -/

/-- C9: `deviation_percent` computes `(value − median) / median × 100`;
for a positive median it is exactly `0` when the value equals the median,
negative below the median and positive above it.  (The `0 < median`
guard reflects that at `median = 0` the source's `f64` division yields
NaN/infinity, outside the exact rational model.) -/
theorem deviation_percent_spec (value median : Nat) :
    deviation_percent value median =
      (((value : ℚ) - (median : ℚ)) / (median : ℚ)) * 100 ∧
    (0 < median →
      ((value = median → deviation_percent value median = 0) ∧
       (value < median → deviation_percent value median < 0) ∧
       (median < value → 0 < deviation_percent value median))) := by
  refine ⟨rfl, fun hm => ⟨?_, ?_, ?_⟩⟩ <;>
    intro hv <;>
    unfold deviation_percent
  · rw [hv]
    simp
  · have h1 : (value : ℚ) < (median : ℚ) := by exact_mod_cast hv
    have h2 : (0 : ℚ) < (median : ℚ) := by exact_mod_cast hm
    have h3 : ((value : ℚ) - (median : ℚ)) / (median : ℚ) < 0 :=
      div_neg_of_neg_of_pos (by linarith) h2
    nlinarith
  · have h1 : (median : ℚ) < (value : ℚ) := by exact_mod_cast hv
    have h2 : (0 : ℚ) < (median : ℚ) := by exact_mod_cast hm
    have h3 : (0 : ℚ) < ((value : ℚ) - (median : ℚ)) / (median : ℚ) :=
      div_pos (by linarith) h2
    nlinarith

/-- Witness for C9 at `value = median = 5` and at `value = 3, median = 5`. -/
theorem deviation_percent_spec_witness :
    deviation_percent 5 5 = 0 ∧ deviation_percent 3 5 < 0 :=
  ⟨((deviation_percent_spec 5 5).2 (by decide)).1 rfl,
   ((deviation_percent_spec 3 5).2 (by decide)).2.1 (by decide)⟩

/-- C3 counterexample: the claim's hue directions are the reverse of the
code's.  With baseline 1 and comparison 2 (comparison strictly larger)
`colorize` selects hue 0, not 120; with baseline 2 and comparison 1
(comparison smaller) it selects hue 120, not 0. -/
theorem colorize_hue_counterexample :
    (colorize 1 2).1 = 0 ∧ (colorize 2 1).1 = 120 ∧
    ¬((colorize 1 2).1 = 120 ∧ (colorize 2 1).1 = 0) := by
  refine ⟨rfl, rfl, ?_⟩
  intro h
  exact absurd h.1 (by norm_num [colorize])

/-- C3 amended: the hue is 0° when the comparison value is strictly
larger than the baseline and 120° when it is smaller (or equal), and the
rational `factor` equals `min(baseline, comparison) / max(baseline,
comparison)`, so the saturation base `1 − factor` that the shared
`powf(0.75) * 100` float step consumes equals
`1 − min(baseline, comparison) / max(baseline, comparison)`. -/
theorem colorize_spec (b v : Nat) :
    (colorize b v).1 = (if b < v then 0 else 120) ∧
    (colorize b v).2 = ((min b v : Nat) : ℚ) / ((max b v : Nat) : ℚ) ∧
    1 - (colorize b v).2 = 1 - ((min b v : Nat) : ℚ) / ((max b v : Nat) : ℚ) := by
  by_cases h : b < v
  · have hmin : min b v = b := min_eq_left (Nat.le_of_lt h)
    have hmax : max b v = v := max_eq_right (Nat.le_of_lt h)
    refine ⟨by simp [colorize, h], ?_, ?_⟩ <;> simp [colorize, h, hmin, hmax]
  · have h' : v ≤ b := Nat.le_of_not_lt h
    have hmin : min b v = v := min_eq_right h'
    have hmax : max b v = b := max_eq_left h'
    refine ⟨by simp [colorize, h], ?_, ?_⟩ <;> simp [colorize, h, hmin, hmax]

/-- Helper: the `total += metric` loop from any starting accumulator. -/
theorem totalBy_foldl_add (f : Lang → Nat) (ls : List Lang) :
    ∀ a : Nat, ls.foldl (fun acc l => acc + f l) a = a + (ls.map f).sum := by
  induction ls with
  | nil => intro a; simp
  | cons l t ih =>
    intro a
    simp only [List.foldl_cons, List.map_cons, List.sum_cons, ih (a + f l)]
    omega

/-- C4: the reported mean is the integer-truncating quotient of the sum
of the metric values by the record count: it equals `sum / count` in
natural-number division, and (for a non-empty collection) it is the exact
floor of the rational average — no rounding to nearest, no floating
point. -/
theorem meanBy_spec (f : Lang → Nat) (ls : List Lang) :
    meanBy f ls = (ls.map f).sum / ls.length ∧
    (ls ≠ [] →
      meanBy f ls * ls.length ≤ (ls.map f).sum ∧
      (ls.map f).sum < (meanBy f ls + 1) * ls.length) := by
  have htot : totalBy f ls = (ls.map f).sum := by
    unfold totalBy
    simpa using totalBy_foldl_add f ls 0
  have hmean : meanBy f ls = (ls.map f).sum / ls.length := by
    unfold meanBy
    rw [htot]
  refine ⟨hmean, fun hne => ?_⟩
  have hpos : 0 < ls.length := List.length_pos.mpr hne
  have hdm := Nat.div_add_mod ((ls.map f).sum) ls.length
  have hlt := Nat.mod_lt ((ls.map f).sum) hpos
  constructor
  · rw [hmean]
    exact Nat.div_mul_le_self _ _
  · rw [hmean]
    calc (ls.map f).sum
        = ls.length * ((ls.map f).sum / ls.length) + (ls.map f).sum % ls.length :=
          (Nat.div_add_mod _ _).symm
      _ < ls.length * ((ls.map f).sum / ls.length) + ls.length := by omega
      _ = ((ls.map f).sum / ls.length + 1) * ls.length := by ring

/-- Witness for C4 on two records with metric values 3 and 4: the mean is
`7 / 2 = 3`, and `3 * 2 ≤ 7 < 4 * 2`. -/
theorem meanBy_spec_witness :
    meanBy Lang.utf8 [langA, langB] = 3 ∧
    meanBy Lang.utf8 [langA, langB] * 2 ≤ ([langA, langB].map Lang.utf8).sum ∧
    ([langA, langB].map Lang.utf8).sum <
      (meanBy Lang.utf8 [langA, langB] + 1) * 2 := by
  have h := (meanBy_spec Lang.utf8 [langA, langB]).2 (by decide)
  exact ⟨by decide, by simpa using h.1, by simpa using h.2⟩

/-- Helper: the metric sort permutes the record collection. -/
theorem sortBy_perm (f : Lang → Nat) (ls : List Lang) :
    (sortBy f ls).Perm ls :=
  List.perm_insertionSort _ ls

/-- Helper: the metric sort preserves the record count. -/
theorem sortBy_length (f : Lang → Nat) (ls : List Lang) :
    (sortBy f ls).length = ls.length :=
  (sortBy_perm f ls).length_eq

/-- Helper: the metric sort is ascending in the metric. -/
theorem sortBy_sorted (f : Lang → Nat) (ls : List Lang) :
    List.Sorted (fun a b => f a ≤ f b) (sortBy f ls) :=
  @List.sorted_insertionSort _ _ _
    ⟨fun a b => Nat.le_total (f a) (f b)⟩
    ⟨fun _ _ _ hab hbc => le_trans hab hbc⟩ ls

/-- Helper: in the metric-sorted list, the metric is monotone in the
position. -/
theorem sortBy_get_le (f : Lang → Nat) (ls : List Lang) {i j : Nat}
    (hij : i ≤ j) (hj : j < (sortBy f ls).length) :
    f ((sortBy f ls).get ⟨i, lt_of_le_of_lt hij hj⟩) ≤
      f ((sortBy f ls).get ⟨j, hj⟩) := by
  rcases Nat.lt_or_ge i j with h | h
  · exact List.pairwise_iff_get.mp (sortBy_sorted f ls) _ _ h
  · have hji : i = j := Nat.le_antisymm hij h
    subst hji
    exact le_refl _

/-- Helper: wrapping `usize` subtraction agrees with truncated `Nat`
subtraction when no underflow occurs. -/
theorem usizeSub_eq {a b : Nat} (hb : b ≤ a) (ha : a < 2 ^ 64) :
    usizeSub a b = a - b := by
  have h1 : a + (2 ^ 64 - b) = (a - b) + 2 ^ 64 := by omega
  rw [usizeSub, h1, Nat.add_mod_right]
  exact Nat.mod_eq_of_lt (by omega)

/-- C10: on a run where exactly one record passes the gate, the
aggregation aborts while computing "max excluding outlier": the `usize`
index `len - 2` underflows to `2^64 - 1` and the lookup is out of range
(`none`), while the median, minimum and maximum lookups of the same
single-record collection all still succeed; any collection of at least
two records makes the "max excluding outlier" lookup succeed. -/
theorem singleton_max2_panics (f : Lang → Nat) (l : Lang) :
    max2By f [l] = none ∧
    medianBy f [l] = some (f l) ∧
    minBy f [l] = some (f l) ∧
    maxBy f [l] = some (f l) ∧
    (∀ ls : List Lang, 2 ≤ ls.length → ls.length < 2 ^ 64 →
      (max2By f ls).isSome) := by
  have hs : sortBy f [l] = [l] := List.perm_singleton.mp (sortBy_perm f [l])
  refine ⟨?_, ?_, ?_, ?_, ?_⟩
  · have hidx : usizeSub (List.length [l]) 2 = 2 ^ 64 - 1 := by
      norm_num [usizeSub]
    unfold max2By
    rw [hs, hidx, List.get?_eq_none.mpr (by norm_num)]
    rfl
  · unfold medianBy
    rw [hs]
    simp
  · unfold minBy
    rw [hs]
    rfl
  · have hidx : usizeSub (List.length [l]) 1 = 0 := by
      norm_num [usizeSub]
    unfold maxBy
    rw [hs, hidx]
    rfl
  · intro ls h2 hsz
    have hidx : usizeSub ls.length 2 = ls.length - 2 :=
      usizeSub_eq (by omega) hsz
    have hlt : ls.length - 2 < (sortBy f ls).length := by
      rw [sortBy_length]
      omega
    unfold max2By
    rw [hidx, List.get?_eq_get hlt]
    rfl

/-- Witness for C10: a one-record run loses "max excluding outlier" but
keeps the median; a two-record run keeps both. -/
theorem singleton_max2_panics_witness :
    max2By Lang.utf8 [langA] = none ∧
    medianBy Lang.utf8 [langA] = some 3 ∧
    (max2By Lang.utf8 [langA, langB]).isSome := by
  have h := singleton_max2_panics Lang.utf8 langA
  exact ⟨h.1, h.2.1, h.2.2.2.2 [langA, langB] (by decide) (by norm_num)⟩

/-- C2: for a non-empty record collection and any metric, the reported
statistics are read off the metric-sorted ascending permutation of the
records: median at index ⌊n/2⌋, minimum first (index 0), maximum last
(index n−1), and — when a second-to-last element exists — "max excluding
outlier" at index n−2; moreover the sorted order genuinely depends on
the metric (two concrete records that the UTF-8 metric and the width
metric order oppositely), so the per-metric sorts cannot be reused. -/
theorem aggregate_spec (f : Lang → Nat) (ls : List Lang)
    (hne : ls ≠ []) (hsz : ls.length < 2 ^ 64) :
    (∃ sorted : List Lang,
      sorted.Perm ls ∧
      List.Sorted (fun a b => f a ≤ f b) sorted ∧
      medianBy f ls = (sorted.get? (ls.length / 2)).map f ∧
      minBy f ls = (sorted.get? 0).map f ∧
      maxBy f ls = (sorted.get? (ls.length - 1)).map f ∧
      (2 ≤ ls.length →
        max2By f ls = (sorted.get? (ls.length - 2)).map f)) ∧
    sortBy Lang.utf8 [langA, langC] ≠ sortBy Lang.width [langA, langC] := by
  have hpos : 0 < ls.length := List.length_pos.mpr hne
  refine ⟨⟨sortBy f ls, sortBy_perm f ls, sortBy_sorted f ls, rfl, rfl, ?_, ?_⟩,
    by decide⟩
  · unfold maxBy
    rw [usizeSub_eq (by omega) hsz]
  · intro h2
    unfold max2By
    rw [usizeSub_eq (by omega) hsz]

/-- Witness for C2 on two records: the sorted view is `[langA, langB]`
(UTF-8 metrics 3 and 4), giving median 4, minimum 3, maximum 4 and
"max excluding outlier" 3. -/
theorem aggregate_spec_witness :
    medianBy Lang.utf8 [langA, langB] = some 4 ∧
    minBy Lang.utf8 [langA, langB] = some 3 ∧
    maxBy Lang.utf8 [langA, langB] = some 4 ∧
    max2By Lang.utf8 [langA, langB] = some 3 := by
  obtain ⟨⟨sorted, hperm, hsort, hmed, hmin, hmax, hmax2⟩, hdiff⟩ :=
    aggregate_spec Lang.utf8 [langA, langB] (by decide) (by decide)
  exact ⟨by decide, by decide, by decide, by decide⟩

/-- Helper: a value appearing at two distinct positions of a list occurs
in it at least twice. -/
theorem two_le_count_of_get? {l : List Nat} {i j a : Nat}
    (hij : i < j) (hi : l.get? i = some a) (hj : l.get? j = some a) :
    2 ≤ l.count a := by
  induction l generalizing i j with
  | nil => simp at hi
  | cons x t ih =>
    cases j with
    | zero => omega
    | succ j' =>
      have hj' : t.get? j' = some a := by simpa using hj
      cases i with
      | zero =>
        have hx : x = a := by simpa using hi
        have hmem : a ∈ t := List.get?_mem hj'
        have hcnt : 0 < t.count a := List.count_pos_iff.mpr hmem
        subst hx
        rw [List.count_cons]
        simp only [beq_self_eq_true, if_true]
        omega
      | succ i' =>
        have hi' : t.get? i' = some a := by simpa using hi
        have hrec := ih (by omega) hi' hj'
        rw [List.count_cons]
        omega

/-- C7 counterexample: the strictness condition "at least 2 distinct
values" is not enough.  Three records with UTF-8 metric values 1, 5, 5
have two distinct values, yet "max excluding outlier" equals the maximum
(both are 5), so `max_excluding_outlier < max` fails. -/
theorem stats_strict_counterexample :
    2 ≤ (([langC, langD, langE].map Lang.utf8).dedup).length ∧
    max2By Lang.utf8 [langC, langD, langE] = some 5 ∧
    maxBy Lang.utf8 [langC, langD, langE] = some 5 ∧
    ¬ (5 : Nat) < 5 := by decide

/-- C7 amended: for at least two records, the reported statistics satisfy
`min ≤ median ≤ max` and `max_excluding_outlier ≤ max`, the last
inequality strict whenever the maximum metric value is attained by
exactly one record (rather than whenever two distinct values exist). -/
theorem stats_order_spec (f : Lang → Nat) (ls : List Lang)
    (h2 : 2 ≤ ls.length) (hsz : ls.length < 2 ^ 64)
    (mn md mx m2 : Nat)
    (hmn : minBy f ls = some mn) (hmd : medianBy f ls = some md)
    (hmx : maxBy f ls = some mx) (hm2 : max2By f ls = some m2) :
    mn ≤ md ∧ md ≤ mx ∧ m2 ≤ mx ∧
    ((ls.map f).count mx = 1 → m2 < mx) := by
  have hlen : (sortBy f ls).length = ls.length := sortBy_length f ls
  have h0 : 0 < (sortBy f ls).length := by omega
  have hmedlt : ls.length / 2 < (sortBy f ls).length := by omega
  have hmaxlt : ls.length - 1 < (sortBy f ls).length := by omega
  have hm2lt : ls.length - 2 < (sortBy f ls).length := by omega
  unfold minBy at hmn
  rw [List.get?_eq_get h0] at hmn
  unfold medianBy at hmd
  rw [List.get?_eq_get hmedlt] at hmd
  unfold maxBy at hmx
  rw [usizeSub_eq (by omega) hsz, List.get?_eq_get hmaxlt] at hmx
  unfold max2By at hm2
  rw [usizeSub_eq (by omega) hsz, List.get?_eq_get hm2lt] at hm2
  simp only [Option.map_some', Option.some.injEq] at hmn hmd hmx hm2
  subst hmn hmd hmx hm2
  refine ⟨sortBy_get_le f ls (by omega) hmedlt,
    sortBy_get_le f ls (by omega) hmaxlt,
    sortBy_get_le f ls (by omega) hmaxlt, ?_⟩
  intro hcount
  by_contra hnot
  have hle : f ((sortBy f ls).get ⟨ls.length - 2, hm2lt⟩) ≤
      f ((sortBy f ls).get ⟨ls.length - 1, hmaxlt⟩) :=
    sortBy_get_le f ls (by omega) hmaxlt
  have heq : f ((sortBy f ls).get ⟨ls.length - 2, hm2lt⟩) =
      f ((sortBy f ls).get ⟨ls.length - 1, hmaxlt⟩) :=
    Nat.le_antisymm hle (Nat.le_of_not_lt hnot)
  have hc2 : (List.map f (sortBy f ls)).get? (ls.length - 2) =
      some (f ((sortBy f ls).get ⟨ls.length - 1, hmaxlt⟩)) := by
    rw [List.get?_map, List.get?_eq_get hm2lt]
    simpa using heq
  have hc1 : (List.map f (sortBy f ls)).get? (ls.length - 1) =
      some (f ((sortBy f ls).get ⟨ls.length - 1, hmaxlt⟩)) := by
    rw [List.get?_map, List.get?_eq_get hmaxlt]
    simp
  have h2c := two_le_count_of_get? (show ls.length - 2 < ls.length - 1 by omega)
    hc2 hc1
  have hperm : (List.map f (sortBy f ls)).Perm (List.map f ls) :=
    (sortBy_perm f ls).map f
  rw [hperm.count_eq] at h2c
  omega

/-- Witness for C7 on two records with UTF-8 metrics 3 and 4: the
reported statistics are min 3, median 4, max 4, max-excluding-outlier 3,
and since the maximum 4 is attained once, `3 < 4` strictly. -/
theorem stats_order_spec_witness :
    minBy Lang.utf8 [langA, langB] = some 3 ∧
    (3 : Nat) ≤ 4 ∧ (4 : Nat) ≤ 4 ∧ (3 : Nat) ≤ 4 ∧ (3 : Nat) < 4 := by
  have h := stats_order_spec Lang.utf8 [langA, langB] (by decide) (by decide)
    3 4 4 3 (by decide) (by decide) (by decide) (by decide)
  exact ⟨by decide, h.1, h.2.1, h.2.2.1, h.2.2.2 (by decide)⟩

/-- C5: the event loop aborts (returns `none`) on exactly the four
illegal region transitions — a `preamble`/`note` start while that flag is
already set, or a `preamble`/`note` end while that flag is not set — and
on nothing else; once a step aborts, the whole run aborts, with no
recovery and no partial output. -/
theorem countStep_abort_spec (st : ExtractSt) (e : Event)
    (rest : List Event) :
    (countStep st e = none ↔
      ((e = .start "preamble" ∧ st.preamble = true) ∨
       (e = .start "note" ∧ st.note = true) ∨
       (e = .endTag "preamble" ∧ st.preamble = false) ∨
       (e = .endTag "note" ∧ st.note = false))) ∧
    (countStep st e = none → processEvents st (e :: rest) = none) := by
  constructor
  · cases e with
    | start n =>
      by_cases hp : n = "preamble"
      · subst hp
        cases hfl : st.preamble <;> simp [countStep, hfl]
      · by_cases hn : n = "note"
        · subst hn
          cases hfl : st.note <;> simp [countStep, hfl]
        · simp [countStep, hp, hn]
    | endTag n =>
      by_cases hp : n = "preamble"
      · subst hp
        cases hfl : st.preamble <;> simp [countStep, hfl]
      · by_cases hn : n = "note"
        · subst hn
          cases hfl : st.note <;> simp [countStep, hfl]
        · simp [countStep, hp, hn]
    | text t =>
      simp only [countStep]
      split
      · split <;> simp
      · simp
    | other => simp [countStep]
  · intro h
    simp [processEvents, h]

/-- Witness for C5: a `preamble` start while the `preamble` flag is set
aborts the step and therefore the whole remaining run. -/
theorem countStep_abort_spec_witness :
    countStep ⟨[], false, true⟩ (.start "preamble") = none ∧
    processEvents ⟨[], false, true⟩ [.start "preamble", .other] = none := by
  have h := countStep_abort_spec ⟨[], false, true⟩ (.start "preamble") [.other]
  have habort := h.1.mpr (Or.inl ⟨rfl, rfl⟩)
  exact ⟨habort, h.2 habort⟩

/-- C6: with both exclusion flags unset, a text event consisting entirely
of ASCII whitespace (the empty string included) leaves the accumulator
unchanged, while a text event with any non-ASCII-whitespace character
(non-ASCII Unicode whitespace included) is appended; with a flag set, the
accumulator is unchanged regardless. -/
theorem text_whitespace_spec (accu t : List Char) (note preamble : Bool) :
    (t.all isAsciiWhitespace = true →
      countStep ⟨accu, note, preamble⟩ (.text t) =
        some ⟨accu, note, preamble⟩) ∧
    (t.all isAsciiWhitespace = false → note = false → preamble = false →
      countStep ⟨accu, false, false⟩ (.text t) =
        some ⟨accu ++ t, false, false⟩) ∧
    (note = true ∨ preamble = true →
      countStep ⟨accu, note, preamble⟩ (.text t) =
        some ⟨accu, note, preamble⟩) ∧
    ([] : List Char).all isAsciiWhitespace = true := by
  refine ⟨?_, ?_, ?_, rfl⟩
  · intro hws
    cases note <;> cases preamble <;> simp [countStep, hws]
  · intro hws _ _
    simp [countStep, hws]
  · intro hfl
    cases note <;> cases preamble <;> simp_all [countStep]

/-- Witness for C6: a space-only text event is dropped while a text event
holding the non-ASCII no-break space U+00A0 is appended. -/
theorem text_whitespace_spec_witness :
    countStep ⟨[], false, false⟩ (.text [' ']) = some ⟨[], false, false⟩ ∧
    countStep ⟨[], false, false⟩ (.text ['\u00A0']) =
      some ⟨['\u00A0'], false, false⟩ := by
  refine ⟨(text_whitespace_spec [] [' '] false false).1 (by decide), ?_⟩
  have h := (text_whitespace_spec [] ['\u00A0'] false false).2.1
    (by decide) rfl rfl
  simpa using h

/-- Helper: running the event loop from any state yields, as its
accumulator, the starting accumulator followed by the concatenation of
the texts the spec-side description collects — and fails on exactly the
same streams. -/
theorem processEvents_accu (events : List Event) :
    ∀ (accu : List Char) (note preamble : Bool),
      (processEvents ⟨accu, note, preamble⟩ events).map ExtractSt.accu =
        (specIncludedTexts note preamble events).map
          (fun ts => accu ++ ts.flatten) := by
  induction events with
  | nil =>
    intro accu note preamble
    simp [processEvents, specIncludedTexts]
  | cons e rest ih =>
    intro accu note preamble
    cases e with
    | start n =>
      by_cases hp : n = "preamble"
      · subst hp
        cases hpre : preamble <;>
          simp [processEvents, countStep, specIncludedTexts, ih]
      · by_cases hn : n = "note"
        · subst hn
          cases hnote : note <;>
            simp [processEvents, countStep, specIncludedTexts, hp, ih]
        · simp [processEvents, countStep, specIncludedTexts, hp, hn, ih]
    | endTag n =>
      by_cases hp : n = "preamble"
      · subst hp
        cases hpre : preamble <;>
          simp [processEvents, countStep, specIncludedTexts, ih]
      · by_cases hn : n = "note"
        · subst hn
          cases hnote : note <;>
            simp [processEvents, countStep, specIncludedTexts, hp, ih]
        · simp [processEvents, countStep, specIncludedTexts, hp, hn, ih]
    | text t =>
      cases hnote : note <;> cases hpre : preamble <;>
        cases hws : t.all isAsciiWhitespace <;>
        simp [processEvents, countStep, specIncludedTexts, hws, ih,
          Option.map_map, Function.comp, List.append_assoc] <;>
        congr 1
    | other =>
      simp [processEvents, countStep, specIncludedTexts, ih]

/-- C1 counterexample: as literally stated — the output is the NFC image
of the concatenation of ALL text events seen while neither flag is set —
the claim fails, because the code additionally drops text events that are
entirely ASCII whitespace.  A single all-whitespace text event outside
both regions is dropped by the code but kept by the claim's
concatenation.  NFC is instantiated with the identity function, which
real NFC agrees with on the one-space string. -/
theorem extraction_counterexample :
    countResult (fun s => s) [.text [' ']] ≠
      (specIncludedTextsAll false false [.text [' ']]).map
        (fun ts => (fun s : List Char => s) ts.flatten) := by decide

/-- C1 amended: the extracted output is the NFC image of the in-order
concatenation of exactly those text events that occur while neither
exclusion flag is set AND are not entirely ASCII whitespace; and the
scenario `<preamble>SKIP</preamble>BODY<note>SKIP</note>` extracts to
exactly "BODY" — 4 code points and 4 graphemes.  NFC itself is external
library code, so it enters as an arbitrary function, pinned down only on
"BODY" (where real NFC is the identity, "BODY" being ASCII). -/
theorem extraction_spec (nfc : List Char → List Char) (events : List Event)
    (hnfc : nfc "BODY".data = "BODY".data) :
    countResult nfc events =
      (specIncludedTexts false false events).map (fun ts => nfc ts.flatten) ∧
    countResult nfc scenarioEvents = some "BODY".data ∧
    utf32Count "BODY".data = 4 ∧
    graphemeCount "BODY".data = 4 := by
  have hgen : countEvents events =
      (specIncludedTexts false false events).map (fun ts => ts.flatten) := by
    have h := processEvents_accu events [] false false
    simpa [countEvents] using h
  refine ⟨?_, ?_, by decide, by decide⟩
  · rw [countResult, hgen, Option.map_map]
    rfl
  · have hsc : countEvents scenarioEvents = some "BODY".data := by decide
    rw [countResult, hsc]
    simp [hnfc]

/-- Witness for C1 with `nfc` instantiated to the identity function. -/
theorem extraction_spec_witness :
    countResult (fun s => s) scenarioEvents = some "BODY".data ∧
    utf32Count "BODY".data = 4 ∧ graphemeCount "BODY".data = 4 := by
  have h := extraction_spec (fun s => s) scenarioEvents rfl
  exact ⟨h.2.1, h.2.2.1, h.2.2.2⟩

/-- Helper: every grapheme cluster is non-empty, so the number of
boundaries inside `prev :: rest` is at most the length of `rest`. -/
theorem graphemeBreaks_le (rest : List Char) :
    ∀ prev : Char, graphemeBreaks prev rest ≤ rest.length := by
  induction rest with
  | nil => intro prev; simp [graphemeBreaks]
  | cons c rest ih =>
    intro prev
    have := ih c
    rw [graphemeBreaks]
    split <;> simp <;> omega

/-- Helper: one UTF-16 code unit per scalar value at least. -/
theorem one_le_utf16Len (c : Char) : 1 ≤ utf16Len c := by
  rw [utf16Len]
  split <;> omega

/-- Helper: a scalar value takes at least as many UTF-8 units as UTF-16
units. -/
theorem utf16Len_le_utf8Len (c : Char) : utf16Len c ≤ utf8Len c := by
  rw [utf16Len, utf8Len]
  split_ifs <;> omega

/-- Helper: ASCII scalar values take one UTF-8 unit. -/
theorem utf8Len_ascii {c : Char} (h : c.val.toNat < 128) : utf8Len c = 1 := by
  rw [utf8Len]
  split
  · rfl
  · omega

/-- Helper: ASCII scalar values take one UTF-16 unit. -/
theorem utf16Len_ascii {c : Char} (h : c.val.toNat < 128) : utf16Len c = 1 := by
  rw [utf16Len]
  split
  · rfl
  · omega

/-- Helper: in an ASCII string with no CR LF pair, every char after the
first starts a new cluster. -/
theorem graphemeBreaks_ascii (rest : List Char) :
    ∀ prev : Char, (∀ c ∈ prev :: rest, c.val.toNat < 128) →
      hasCRLF (prev :: rest) = false →
      graphemeBreaks prev rest = rest.length := by
  induction rest with
  | nil => intro prev _ _; simp [graphemeBreaks]
  | cons c rest ih =>
    intro prev hascii hcrlf
    rw [hasCRLF] at hcrlf
    simp only [Bool.or_eq_false_iff, Bool.and_eq_false_iff] at hcrlf
    have hext : isGraphemeExtend c = false := by
      have hc : c.val.toNat < 128 := hascii c (by simp)
      simp only [isGraphemeExtend, Bool.and_eq_false_iff]
      left
      simp only [decide_eq_false_iff_not]
      omega
    have hbound : graphemeBoundary prev c = true := by
      rw [graphemeBoundary, hext]
      rcases hcrlf.1 with h | h <;> simp [h]
    have htail := ih c (fun x hx => hascii x (by simp at hx ⊢; tauto)) hcrlf.2
    rw [graphemeBreaks, hbound, htail]
    simp [Nat.add_comm]

/-- C8 counterexample: the all-ASCII equality clause fails on the ASCII
string CR LF, which the grapheme segmentation joins into a single cluster
(Unicode rule GB3, implemented by the external segmenter and kept by the
spec-modelled counter): 1 grapheme but 2 code points / 2 UTF-16 units /
2 UTF-8 bytes. -/
theorem metric_chain_counterexample :
    (∀ c ∈ ['\r', '\n'], c.val.toNat < 128) ∧
    graphemeCount ['\r', '\n'] = 1 ∧
    utf8Count ['\r', '\n'] = 2 ∧
    graphemeCount ['\r', '\n'] ≠ utf8Count ['\r', '\n'] := by decide

/-- C8 amended: for every string, grapheme count ≤ code-point count ≤
UTF-16 unit count ≤ UTF-8 unit count; for an all-ASCII string the three
code-unit counts all equal the length, and the grapheme count equals them
too provided the string has no CR directly followed by LF. -/
theorem metric_chain_spec (s : List Char) :
    graphemeCount s ≤ utf32Count s ∧
    utf32Count s ≤ utf16Count s ∧
    utf16Count s ≤ utf8Count s ∧
    ((∀ c ∈ s, c.val.toNat < 128) →
      utf8Count s = utf32Count s ∧ utf16Count s = utf32Count s ∧
      (hasCRLF s = false → graphemeCount s = utf32Count s)) := by
  refine ⟨?_, ?_, ?_, ?_⟩
  · cases s with
    | nil => simp [graphemeCount, utf32Count]
    | cons c rest =>
      have := graphemeBreaks_le rest c
      simp only [graphemeCount, utf32Count, List.length_cons]
      omega
  · rw [utf32Count]
    induction s with
    | nil => simp [utf16Count]
    | cons c rest ih =>
      have := one_le_utf16Len c
      simp only [utf16Count, List.map_cons, List.sum_cons,
        List.length_cons] at ih ⊢
      omega
  · induction s with
    | nil => simp [utf16Count, utf8Count]
    | cons c rest ih =>
      have := utf16Len_le_utf8Len c
      simp only [utf16Count, utf8Count, List.map_cons, List.sum_cons] at ih ⊢
      omega
  · intro hascii
    refine ⟨?_, ?_, ?_⟩
    · rw [utf32Count]
      induction s with
      | nil => simp [utf8Count]
      | cons c rest ih =>
        have h1 : utf8Len c = 1 := utf8Len_ascii (hascii c (by simp))
        have h2 := ih (fun x hx => hascii x (by simp [hx]))
        simp only [utf8Count, List.map_cons, List.sum_cons,
          List.length_cons] at h2 ⊢
        omega
    · rw [utf32Count]
      induction s with
      | nil => simp [utf16Count]
      | cons c rest ih =>
        have h1 : utf16Len c = 1 := utf16Len_ascii (hascii c (by simp))
        have h2 := ih (fun x hx => hascii x (by simp [hx]))
        simp only [utf16Count, List.map_cons, List.sum_cons,
          List.length_cons] at h2 ⊢
        omega
    · intro hcrlf
      cases s with
      | nil => simp [graphemeCount, utf32Count]
      | cons c rest =>
        have := graphemeBreaks_ascii rest c hascii hcrlf
        simp only [graphemeCount, utf32Count, List.length_cons]
        omega

/-- Witness for C8 on the ASCII string "BODY": all four metrics are 4. -/
theorem metric_chain_spec_witness :
    utf8Count "BODY".data = utf32Count "BODY".data ∧
    utf16Count "BODY".data = utf32Count "BODY".data ∧
    graphemeCount "BODY".data = utf32Count "BODY".data ∧
    utf32Count "BODY".data = 4 := by
  have h := (metric_chain_spec "BODY".data).2.2.2 (by decide)
  exact ⟨h.1, h.2.1, h.2.2 (by decide), by decide⟩

end Udhrlen
